import Mathlib

/-!
Verification of the gastown convoy-reconciliation subsystem and its
neighbouring packages (hooks, capacity scheduler), as a shallow embedding
in Lean 4.  Pure Go functions become Lean functions; stateful code passes
state explicitly; external collaborator calls (routing table, dispatch
boundary, issue store, `time.ParseDuration`) are parameters of the
embedded functions; side effects at the collaborator boundary are
recorded in an explicit trace of `Call` values.
-/

namespace Gastown

/-! ## Capacity scheduler configuration (internal/capacity) -/

/-- `SchedulerConfig` from the capacity package.  Go pointer fields
(`*int`) become `Option Int`; `nil` is `none`.  `SpawnDelay` stays a
string, parsed on access. -/
structure SchedulerConfig where
  Enabled : Bool
  MaxPolecats : Option Int
  BatchSize : Option Int
  SpawnDelay : String

/-- `DefaultSchedulerConfig` from the capacity package. -/
def DefaultSchedulerConfig : SchedulerConfig :=
  { Enabled := false
    MaxPolecats := some 10
    BatchSize := some 3
    SpawnDelay := "2s" }

/-- `GetMaxPolecats`: a Go method on a possibly-nil `*SchedulerConfig`
receiver, so the receiver is `Option SchedulerConfig` here. -/
def GetMaxPolecats : Option SchedulerConfig → Int
  | none => 10
  | some c =>
    match c.MaxPolecats with
    | none => 10
    | some n => n

/-- `GetBatchSize`, same nil-receiver convention. -/
def GetBatchSize : Option SchedulerConfig → Int
  | none => 3
  | some c =>
    match c.BatchSize with
    | none => 3
    | some n => n

/-- Go `time.Duration` is an `int64` count of nanoseconds. -/
abbrev Duration := Int

/-- Two seconds in nanoseconds (`2 * time.Second`). -/
def twoSeconds : Duration := 2000000000

/-- `ParseDurationOrDefault` from the capacity package.  The standard
library call `time.ParseDuration` is an external collaborator, passed in
as `parse` (returning `none` exactly when Go returns a non-nil error). -/
def ParseDurationOrDefault (parse : String → Option Duration)
    (s : String) (fallback : Duration) : Duration :=
  if s = "" then fallback
  else
    match parse s with
    | none => fallback
    | some d => d

/-- `GetSpawnDelay`, nil-receiver convention as above, parameterised by
the external duration parser. -/
def GetSpawnDelay (parse : String → Option Duration) :
    Option SchedulerConfig → Duration
  | none => twoSeconds
  | some c =>
    if c.SpawnDelay = "" then twoSeconds
    else ParseDurationOrDefault parse c.SpawnDelay twoSeconds

/-! ## Hook runner (internal/hooks) -/

/-- `EventType` is a string type in Go. -/
abbrev EventType := String

/-- `HookConfig` from internal/hooks/types.go.  `Type` is a Lean
keyword, so the field is `type_`. -/
structure HookConfig where
  type_ : String
  Cmd : String
  Builtin : String
  Timeout : Int

/-- `HookResult` from internal/hooks/types.go.  `Err` is `none` when the
Go error is nil; `Duration` in nanoseconds. -/
structure HookResult where
  Block : Bool
  Message : String
  Err : Option String
  Duration : Int

/-- `isPreEvent` from internal/hooks: true exactly for
`pre-session-start` and `pre-shutdown`. -/
def isPreEvent (eventType : EventType) : Bool :=
  match eventType with
  | "pre-session-start" => true
  | "pre-shutdown" => true
  | _ => false

/-- The `for _, hook := range hooks` loop body of `HookRunner.Fire`:
execute each hook, append its result, and for pre-events stop right
after a result with `Block = true`.  `executeHook` (which shells out or
runs a builtin) is the external execution boundary, passed in. -/
def fireLoop (executeHook : HookConfig → HookResult) (isPre : Bool) :
    List HookConfig → List HookResult
  | [] => []
  | h :: rest =>
    let r := executeHook h
    if isPre && r.Block then [r]
    else r :: fireLoop executeHook isPre rest

/-- `HookRunner.Fire`: look up the hooks registered for the event (a Go
map lookup; missing key and empty list both yield the empty run), then
run the loop.  The runner's loaded config is the function `cfgHooks`. -/
def Fire (cfgHooks : EventType → List HookConfig)
    (executeHook : HookConfig → HookResult) (eventType : EventType) :
    List HookResult :=
  let hooks := cfgHooks eventType
  if hooks.isEmpty then []
  else fireLoop executeHook (isPreEvent eventType) hooks

/-! ## Convoy reconciliation data model

The convoy core (internal/convoy/operations.go and
internal/daemon/convoy_manager.go) is not among the shipped sources;
only its documentation, test plan and spec are.  The definitions below
are therefore modelled from the spec (sections 3-4.5 and the repo's
convoy guide), with external collaborators (routing table, dispatch
boundary, issue store) as parameters and side effects as an explicit
trace of `Call`s. -/

/-- Modelled from the spec: an issue of the dependency/issue store —
identifier, free-form type (empty means task), status, assignee (empty
if unassigned). -/
structure Issue where
  id : String
  issueType : String
  status : String
  assignee : String
deriving DecidableEq

/-- Modelled from the spec: a dependency edge `(fromIssue, toIssue,
kind)`; kinds are the strings `tracks`, `blocks`, `conditional-blocks`,
`waits-for`, `parent-child`. -/
structure DepEdge where
  src : String
  dst : String
  kind : String
deriving DecidableEq

/-- Modelled from the spec: one entry of `dependenciesOf(issueID) ->
[{targetID, kind, targetStatus}]`. -/
structure DepInfo where
  targetID : String
  kind : String
  targetStatus : String
deriving DecidableEq

/-- A call across the external collaborator boundary, recorded so that
"zero side effects" is checkable, not just "no crash". -/
inductive Call where
  /-- a dependency-store query (`dependentsOf(issueID, tracks)`) -/
  | depLookup (issueID : String)
  /-- a convoy check triggered for `convoyID` because `issueID` closed -/
  | convoyCheck (convoyID issueID : String)
  /-- a dispatch-boundary call assigning `issueID` to `rig` -/
  | dispatch (issueID rig : String)
  /-- a dispatch-boundary call closing `convoyID` -/
  | closeConvoy (convoyID : String)
deriving DecidableEq

/-- Modelled from the spec: the external collaborators of the feed
engine and stranded scanner.  `resolveRig` is the routing table
(`none` = unknown/unmapped routing); `dispatchOK` and `closeOK` give
the success/failure outcome of the dispatch boundary. -/
structure ScanEnv where
  resolveRig : String → Option String
  dispatchOK : String → String → Bool
  closeOK : String → Bool

/-! ## Safety guard set -/

/-- `slingableTypes`, the closed Go map constant quoted in the convoy
guide: task, bug, feature, chore and the empty string map to true;
lookup of any other key yields the map's zero value, false. -/
def slingableTypes (t : String) : Bool :=
  t = "task" || t = "bug" || t = "feature" || t = "chore" || t = ""

/-- `IsSlingableType`: membership in `slingableTypes`. -/
def IsSlingableType (t : String) : Bool := slingableTypes t

/-- Modelled from the spec: the blocking edge kinds — `blocks`,
`conditional-blocks`, `waits-for`; `tracks` and `parent-child` are not
blocking. -/
def isBlockingKind (k : String) : Bool :=
  k = "blocks" || k = "conditional-blocks" || k = "waits-for"

/-- Modelled from the spec: `isIssueBlocked(issue, depLookup)`.  The
dependency lookup is the external store call, returning either an error
or the issue's outgoing dependency records.  On error the function is
fail-open: it returns false.  Otherwise it is true iff some edge of a
blocking kind points at a non-closed target. -/
def isIssueBlocked (depLookup : String → Except String (List DepInfo))
    (issueID : String) : Bool :=
  match depLookup issueID with
  | .error _ => false
  | .ok deps => deps.any fun d => isBlockingKind d.kind && !(d.targetStatus == "closed")

/-! ## Feed engine: feedFirstReady -/

/-- The feed outcome of one invocation: at most one issue fed. -/
inductive FeedOutcome where
  | fed (issueID : String)
  | noOp
deriving DecidableEq

/-- Modelled from the spec: `feedFirstReady` — iterate the ready
candidates in supplied order; resolve a rig for each via routing (skip
the candidate when routing fails); attempt dispatch (continue to the
next candidate on failure, no retry in the same pass); stop at the
first successful dispatch.  Returns the outcome and the trace of
dispatch-boundary calls attempted. -/
def feedFirstReady (env : ScanEnv) : List String → FeedOutcome × List Call
  | [] => (.noOp, [])
  | iss :: rest =>
    match env.resolveRig iss with
    | none => feedFirstReady env rest
    | some rig =>
      if env.dispatchOK iss rig then (.fed iss, [.dispatch iss rig])
      else
        let r := feedFirstReady env rest
        (r.1, .dispatch iss rig :: r.2)

/-- A candidate for which routing resolves and dispatch succeeds. -/
def dispatchSucceeds (env : ScanEnv) (iss : String) : Bool :=
  match env.resolveRig iss with
  | none => false
  | some rig => env.dispatchOK iss rig

/-- Whether a recorded call is a dispatch that the boundary accepted. -/
def isSuccessfulDispatch (env : ScanEnv) : Call → Bool
  | .dispatch iss rig => env.dispatchOK iss rig
  | _ => false

/-! ## Issue store world and checkConvoy -/

/-- Modelled from the spec: the dependency/issue store's state — a flat
list of issues and the dependency edge set. -/
structure World where
  issues : List Issue
  edges : List DepEdge

/-- `getIssue(id)`: first issue with the given id, if any. -/
def getIssue (w : World) (id : String) : Option Issue :=
  w.issues.find? fun i => i.id == id

/-- Status of an issue id, empty string when absent. -/
def statusOf (w : World) (id : String) : String :=
  match getIssue w id with
  | none => ""
  | some i => i.status

/-- `dependenciesOf(issueID)`: the outgoing edges of an issue, with each
target's current status attached. -/
def dependenciesOf (w : World) (issueID : String) : List DepInfo :=
  (w.edges.filter fun e => e.src == issueID).map fun e =>
    ⟨e.dst, e.kind, statusOf w e.dst⟩

/-- Modelled from the spec: `getTrackingConvoys` /
`dependentsOf(issueID, tracks)` — the sources of `tracks` edges into the
issue, the convoys that track it (other edge kinds filtered out). -/
def getTrackingConvoys (edges : List DepEdge) (issueID : String) : List String :=
  (edges.filter fun e => e.dst == issueID && e.kind == "tracks").map fun e => e.src

/-- The ids of the issues a convoy tracks: targets of its outgoing
`tracks` edges. -/
def trackedIssueIDs (w : World) (convoyID : String) : List String :=
  (w.edges.filter fun e => e.src == convoyID && e.kind == "tracks").map fun e => e.dst

/-- `getConvoyTrackedIssues`: resolve the tracked ids through the
store. -/
def getConvoyTrackedIssues (w : World) (convoyID : String) : List Issue :=
  (trackedIssueIDs w convoyID).filterMap (getIssue w)

/-- Set one issue's status in the store. -/
def setIssueStatus (w : World) (id status : String) : World :=
  { w with issues := w.issues.map fun i =>
      if i.id == id then { i with status := status } else i }

/-- Modelled from the spec: `closeEmptyConvoy` — issue a close request
at the dispatch boundary; the convoy's status changes only when the
boundary reports success. -/
def closeConvoyW (env : ScanEnv) (w : World) (convoyID : String) : World :=
  if env.closeOK convoyID then setIssueStatus w convoyID "closed" else w

/-- Readiness of a tracked candidate: open, slingable type, unassigned,
and not blocked (blocking checked through the store's dependency
lookup, which in this in-store view always answers). -/
def isReadyCandidate (w : World) (i : Issue) : Bool :=
  !(i.status == "closed") && IsSlingableType i.issueType
    && i.assignee == ""
    && !(isIssueBlocked (fun id => .ok (dependenciesOf w id)) i.id)

/-- Modelled from the spec: `checkConvoy(convoyID)` of the feed engine.
If the convoy is missing or already closed: no-op (state unchanged, no
calls).  Otherwise, if every tracked issue is closed (or none are
tracked), close the convoy.  Otherwise feed at most one ready candidate
via `feedFirstReady`.  Returns the new store state and the trace of
dispatch-boundary calls. -/
def checkConvoy (env : ScanEnv) (w : World) (convoyID : String) :
    World × List Call :=
  match getIssue w convoyID with
  | none => (w, [])
  | some cv =>
    if cv.status == "closed" then (w, [])
    else
      let tracked := getConvoyTrackedIssues w convoyID
      if tracked.all fun i => i.status == "closed" then
        (closeConvoyW env w convoyID, [.closeConvoy convoyID])
      else
        let cands := (tracked.filter (isReadyCandidate w)).map fun i => i.id
        (w, (feedFirstReady env cands).2)

/-! ## Stranded scanner -/

/-- Modelled from the spec: one entry of the stranded-list query —
convoy id, ready count, and the pre-filtered ready issue ids. -/
structure StrandedConvoy where
  id : String
  readyCount : Nat
  readyIssues : List String
deriving DecidableEq

/-- Modelled from the spec: the processing of a single stranded convoy
inside `scan` — ready work present: `feedFirstReady`; none:
`closeEmptyConvoy`.  Failures of either are recorded in the trace but
never escalate. -/
def perConvoyCalls (env : ScanEnv) (c : StrandedConvoy) : List Call :=
  if c.readyIssues.isEmpty then [.closeConvoy c.id]
  else (feedFirstReady env c.readyIssues).2

/-- Modelled from the spec: `scan()` — process every stranded convoy
independently; a failure on one convoy is logged and the loop continues
to the next, so the cycle's trace is the concatenation of the
per-convoy traces. -/
def scan (env : ScanEnv) (convoys : List StrandedConvoy) : List Call :=
  match convoys with
  | [] => []
  | c :: rest => perConvoyCalls env c ++ scan env rest

/-! ## Event poller -/

/-- Modelled from the spec: an event of a backing store's feed —
monotonically increasing id scoped to the store, a type (only `closed`
is significant), an issue id that may be empty, timestamp elided. -/
structure Event where
  id : Nat
  type_ : String
  issueID : String
deriving DecidableEq

/-- The store's current latest event id (0 for an empty history). -/
def latestEventID (events : List Event) : Nat :=
  events.foldl (fun acc e => max acc e.id) 0

/-- `eventsSince(lastID)`: the events strictly after the high-water
mark. -/
def eventsSince (events : List Event) (lastID : Nat) : List Event :=
  events.filter fun e => lastID < e.id

/-- Modelled from the spec: the per-event body of `pollEvents` — a
completion event with a non-empty issue id resolves the convoys
tracking that issue (one dependency-store call) and triggers a convoy
check per tracking convoy; every other event is skipped with zero
calls. -/
def processEvent (edges : List DepEdge) (e : Event) : List Call :=
  if e.type_ == "closed" then
    if e.issueID == "" then []
    else
      .depLookup e.issueID ::
        (getTrackingConvoys edges e.issueID).map fun cv => .convoyCheck cv e.issueID
  else []

/-- Modelled from the spec: one poll of one store.  Before the warm-up
(`seeded = false`) the poll seeds the mark from the store's current
latest event id and processes nothing.  Afterwards it fetches the
events past the mark, processes each, and advances the mark to the
highest id observed in the poll (the mark when nothing is fresh).
Returns the new mark and the poll's call trace. -/
def pollStore (edges : List DepEdge) (seeded : Bool) (mark : Nat)
    (events : List Event) : Nat × List Call :=
  if !seeded then (latestEventID events, [])
  else
    let fresh := eventsSince events mark
    (fresh.foldl (fun acc e => max acc e.id) mark,
     fresh.flatMap (processEvent edges))

/-- A named-store table: the high-water marks, one per store name. -/
def updateMark (marks : String → Nat) (name : String) (v : Nat) :
    String → Nat :=
  fun n => if n = name then v else marks n

/-- Modelled from the spec: `pollAllStores` — poll every configured
store, each against its own high-water mark, concatenating the
traces. -/
def pollAllStores (edges : List DepEdge) (seeded : Bool)
    (stores : List (String × List Event)) (marks : String → Nat) :
    (String → Nat) × List Call :=
  match stores with
  | [] => (marks, [])
  | (name, events) :: rest =>
    let r := pollStore edges seeded (marks name) events
    let next := pollAllStores edges seeded rest (updateMark marks name r.1)
    (next.1, r.2 ++ next.2)

/-- The event poller's owned state: the warm-up flag and the high-water
mark table. -/
structure PollerState where
  seeded : Bool
  marks : String → Nat

/-- One full poll cycle: after it, the poller is seeded. -/
def pollCycle (edges : List DepEdge)
    (stores : List (String × List Event)) (st : PollerState) : PollerState :=
  { seeded := true
    marks := (pollAllStores edges st.seeded stores st.marks).1 }

/-- The poller states after each poll of a sequence of store
snapshots. -/
def pollerStates (edges : List DepEdge) (st : PollerState) :
    List (List (String × List Event)) → List PollerState
  | [] => []
  | snap :: rest =>
    let st' := pollCycle edges snap st
    st' :: pollerStates edges st' rest

/-! ## Reconciliation manager lifecycle -/

/-- Modelled from the spec: the loop bookkeeping of the
`ConvoyManager` — how many event-poll loops and stranded-scan loops
have been spawned and are running. -/
structure ConvoyManager where
  pollLoops : Nat
  scanLoops : Nat

/-- A newly constructed manager: nothing running. -/
def newConvoyManager : ConvoyManager := { pollLoops := 0, scanLoops := 0 }

/-- Modelled from the spec: `Start()` — spawns one event-poll loop per
configured backing store and one stranded-scan loop.  Per the design
notes (double-start hazard) the lifecycle has no guard against being
already running: a second call spawns the loops again (`wg.Add(2)`
again). -/
def Start (numStores : Nat) (m : ConvoyManager) : ConvoyManager :=
  { pollLoops := m.pollLoops + numStores
    scanLoops := m.scanLoops + 1 }

/-! ## Theorems -/

/-- C3: `IsSlingableType` is true exactly on the closed set {task, bug,
feature, chore, ""} and false on every other string, in particular on
epic, sub-epic, convoy and decision types. -/
theorem IsSlingableType_spec (t : String) :
    (IsSlingableType t = true ↔
      t = "task" ∨ t = "bug" ∨ t = "feature" ∨ t = "chore" ∨ t = "")
    ∧ IsSlingableType "epic" = false
    ∧ IsSlingableType "sub-epic" = false
    ∧ IsSlingableType "convoy" = false
    ∧ IsSlingableType "decision" = false := by
  refine ⟨?_, by decide, by decide, by decide, by decide⟩
  simp only [IsSlingableType, slingableTypes, Bool.or_eq_true, decide_eq_true_eq]
  tauto

/-- C3 witness: concrete evaluations through the theorem. -/
theorem IsSlingableType_spec_witness :
    IsSlingableType "task" = true ∧ IsSlingableType "" = true
    ∧ IsSlingableType "epic" = false := by
  refine ⟨?_, ?_, (IsSlingableType_spec "epic").2.1⟩
  · exact (IsSlingableType_spec "task").1.mpr (Or.inl rfl)
  · exact (IsSlingableType_spec "").1.mpr (Or.inr (Or.inr (Or.inr (Or.inr rfl))))

/-- C2: `isIssueBlocked` is true iff the lookup succeeds and some
returned edge of kind blocks / conditional-blocks / waits-for points at
a non-closed target (so parent-child edges never block), and on a
lookup error it returns false (fail-open) instead of propagating. -/
theorem isIssueBlocked_spec
    (depLookup : String → Except String (List DepInfo)) (issueID : String) :
    (isIssueBlocked depLookup issueID = true ↔
      ∃ deps, depLookup issueID = .ok deps ∧ ∃ d ∈ deps,
        (d.kind = "blocks" ∨ d.kind = "conditional-blocks" ∨ d.kind = "waits-for")
        ∧ d.targetStatus ≠ "closed")
    ∧ (∀ e, depLookup issueID = .error e → isIssueBlocked depLookup issueID = false) := by
  constructor
  · unfold isIssueBlocked
    cases hlk : depLookup issueID with
    | error e => simp
    | ok deps =>
      simp only [List.any_eq_true, Bool.and_eq_true, Bool.not_eq_true',
        beq_eq_false_iff_ne, ne_eq, isBlockingKind, Bool.or_eq_true,
        decide_eq_true_eq]
      constructor
      · rintro ⟨d, hd, hk, hs⟩
        exact ⟨deps, rfl, d, hd, by tauto, hs⟩
      · rintro ⟨deps', heq, d, hd, hk, hs⟩
        cases heq
        exact ⟨d, hd, by tauto, hs⟩
  · intro e he
    unfold isIssueBlocked
    rw [he]

/-- C2 witness: a simulated store error yields false, and a sole
parent-child edge to an open parent yields false. -/
theorem isIssueBlocked_spec_witness :
    isIssueBlocked (fun _ => Except.error "simulated store error") "i1" = false
    ∧ isIssueBlocked
        (fun _ => Except.ok [⟨"parent1", "parent-child", "open"⟩]) "i1" = false := by
  constructor
  · exact (isIssueBlocked_spec (fun _ => Except.error "simulated store error") "i1").2
      "simulated store error" rfl
  · have h := (isIssueBlocked_spec
      (fun _ => Except.ok [(⟨"parent1", "parent-child", "open"⟩ : DepInfo)]) "i1").1
    by_contra hne
    have hb : isIssueBlocked
        (fun _ => Except.ok [(⟨"parent1", "parent-child", "open"⟩ : DepInfo)]) "i1" = true := by
      revert hne
      cases isIssueBlocked
        (fun _ => Except.ok [(⟨"parent1", "parent-child", "open"⟩ : DepInfo)]) "i1" <;> simp
    obtain ⟨deps, heq, d, hd, hk, -⟩ := h.mp hb
    cases heq
    simp only [List.mem_singleton] at hd
    subst hd
    rcases hk with h1 | h1 | h1 <;> simp at h1

/-- C7: there is no double-start guard — a second `Start()` while
running spawns a second event-poll loop per store and a second
stranded-scan loop, so with one configured store there are two of each
afterwards, contradicting "still exactly one". -/
theorem Start_double_spawns_duplicate_loops :
    (Start 1 (Start 1 newConvoyManager)).pollLoops = 2
    ∧ (Start 1 (Start 1 newConvoyManager)).scanLoops = 2 := by
  decide

/-- C6: `checkConvoy` on an already-closed convoy is a pure no-op: the
store state is unchanged and no dispatch or close call is made. -/
theorem checkConvoy_closed_noop (env : ScanEnv) (w : World) (convoyID : String)
    (cv : Issue) (hget : getIssue w convoyID = some cv)
    (hclosed : cv.status = "closed") :
    checkConvoy env w convoyID = (w, []) := by
  simp [checkConvoy, hget, hclosed]

/-- C6 witness: a concrete one-convoy world, convoy already closed. -/
theorem checkConvoy_closed_noop_witness :
    checkConvoy ⟨fun _ => none, fun _ _ => false, fun _ => false⟩
      ⟨[⟨"cv1", "convoy", "closed", ""⟩], []⟩ "cv1"
      = (⟨[⟨"cv1", "convoy", "closed", ""⟩], []⟩, []) :=
  checkConvoy_closed_noop ⟨fun _ => none, fun _ _ => false, fun _ => false⟩
    ⟨[⟨"cv1", "convoy", "closed", ""⟩], []⟩ "cv1"
    ⟨"cv1", "convoy", "closed", ""⟩ rfl rfl

/-- C10: the `SchedulerConfig` accessors are total on a nil receiver
and unset fields: `GetMaxPolecats` is 10 when the receiver or the field
is nil and the stored value (including an explicit 0) otherwise;
`GetBatchSize` likewise with default 3; `GetSpawnDelay` is 2s when the
receiver is nil, the string is empty or it fails to parse, and the
parsed duration otherwise. -/
theorem schedulerConfig_accessors_total :
    (GetMaxPolecats none = 10)
    ∧ (∀ c : SchedulerConfig, c.MaxPolecats = none → GetMaxPolecats (some c) = 10)
    ∧ (∀ (c : SchedulerConfig) (n : Int), c.MaxPolecats = some n →
        GetMaxPolecats (some c) = n)
    ∧ (GetBatchSize none = 3)
    ∧ (∀ c : SchedulerConfig, c.BatchSize = none → GetBatchSize (some c) = 3)
    ∧ (∀ (c : SchedulerConfig) (n : Int), c.BatchSize = some n →
        GetBatchSize (some c) = n)
    ∧ (∀ parse, GetSpawnDelay parse none = twoSeconds)
    ∧ (∀ parse (c : SchedulerConfig), c.SpawnDelay = "" →
        GetSpawnDelay parse (some c) = twoSeconds)
    ∧ (∀ parse (c : SchedulerConfig), parse c.SpawnDelay = none →
        GetSpawnDelay parse (some c) = twoSeconds)
    ∧ (∀ parse (c : SchedulerConfig) (d : Duration), c.SpawnDelay ≠ "" →
        parse c.SpawnDelay = some d → GetSpawnDelay parse (some c) = d) := by
  refine ⟨rfl, ?_, ?_, rfl, ?_, ?_, fun _ => rfl, ?_, ?_, ?_⟩
  · intro c h; simp [GetMaxPolecats, h]
  · intro c n h; simp [GetMaxPolecats, h]
  · intro c h; simp [GetBatchSize, h]
  · intro c n h; simp [GetBatchSize, h]
  · intro parse c h; simp [GetSpawnDelay, h]
  · intro parse c h
    by_cases hs : c.SpawnDelay = ""
    · simp [GetSpawnDelay, hs]
    · simp [GetSpawnDelay, hs, ParseDurationOrDefault, h]
  · intro parse c d hs h
    simp [GetSpawnDelay, hs, ParseDurationOrDefault, h]

/-- C10 witness: nil receiver, unset fields, explicit zero, bad and
good duration strings, through the theorem. -/
theorem schedulerConfig_accessors_total_witness :
    GetMaxPolecats none = 10
    ∧ GetMaxPolecats (some ⟨true, some 0, none, "bogus"⟩) = 0
    ∧ GetBatchSize (some ⟨true, some 0, none, "bogus"⟩) = 3
    ∧ GetSpawnDelay (fun _ => none) (some ⟨true, some 0, none, "bogus"⟩) = twoSeconds
    ∧ GetSpawnDelay (fun s => if s = "5s" then some 5000000000 else none)
        (some ⟨true, none, some 4, "5s"⟩) = 5000000000 := by
  obtain ⟨h1, -, h3, -, h5, -, -, -, h9, h10⟩ := schedulerConfig_accessors_total
  exact ⟨h1, h3 _ 0 rfl, h5 _ rfl, h9 _ _ rfl,
    h10 _ _ 5000000000 (by decide) rfl⟩

/-- The non-pre branch of the `Fire` loop: every registered hook runs,
regardless of any blocking result. -/
theorem fireLoop_not_pre (executeHook : HookConfig → HookResult) :
    ∀ hooks : List HookConfig,
      fireLoop executeHook false hooks = hooks.map executeHook
  | [] => rfl
  | h :: rest => by
    simp [fireLoop, fireLoop_not_pre executeHook rest]

/-- The pre-event branch of the `Fire` loop: the hooks that run are the
prefix of the list up to and including the first whose result blocks
(all of them when none block), each contributing its own result. -/
theorem fireLoop_pre (executeHook : HookConfig → HookResult) :
    ∀ hooks : List HookConfig,
      fireLoop executeHook true hooks =
        (hooks.take (hooks.findIdx (fun h => (executeHook h).Block) + 1)).map
          executeHook
  | [] => rfl
  | h :: rest => by
    by_cases hb : (executeHook h).Block
    · simp [fireLoop, hb, List.findIdx_cons]
    · simp [fireLoop, hb, List.findIdx_cons, List.take_succ_cons,
        fireLoop_pre executeHook rest]

/-- In the pre-event loop, when some hook's result blocks, the run ends
exactly at a blocking result. -/
theorem fireLoop_pre_block_last (executeHook : HookConfig → HookResult) :
    ∀ hooks : List HookConfig, (∃ h ∈ hooks, (executeHook h).Block = true) →
      ∃ r, (fireLoop executeHook true hooks).getLast? = some r ∧ r.Block = true
  | [], h => absurd h (by simp)
  | h :: rest, hex => by
    by_cases hb : (executeHook h).Block
    · exact ⟨executeHook h, by simp [fireLoop, hb], hb⟩
    · have hrest : ∃ h' ∈ rest, (executeHook h').Block = true := by
        rcases hex with ⟨h', hmem, hbl⟩
        rcases List.mem_cons.mp hmem with heq | hmem'
        · subst heq; exact absurd hbl (by simp [hb])
        · exact ⟨h', hmem', hbl⟩
      obtain ⟨r, hlast, hblock⟩ := fireLoop_pre_block_last executeHook rest hrest
      refine ⟨r, ?_, hblock⟩
      have hmem : r ∈ (executeHook h :: fireLoop executeHook true rest).getLast? :=
        List.mem_getLast?_cons (by rw [Option.mem_def]; exact hlast)
      rw [Option.mem_def] at hmem
      simpa [fireLoop, hb] using hmem

/-- C9: `Fire` runs the hooks registered for the event in list order,
one result per executed hook; for a non-pre event every registered hook
runs regardless of blocking, while for a pre event the run is the
prefix up to and including the first hook whose result has
`Block = true` — no later hook runs, and when some hook blocks, the
last returned result is a blocking one. -/
theorem Fire_spec (cfgHooks : EventType → List HookConfig)
    (executeHook : HookConfig → HookResult) (evt : EventType) :
    (isPreEvent evt = false →
      Fire cfgHooks executeHook evt = (cfgHooks evt).map executeHook)
    ∧ (isPreEvent evt = true →
      Fire cfgHooks executeHook evt =
        ((cfgHooks evt).take
            ((cfgHooks evt).findIdx (fun h => (executeHook h).Block) + 1)).map
          executeHook)
    ∧ (isPreEvent evt = true →
      (∃ h ∈ cfgHooks evt, (executeHook h).Block = true) →
      ∃ r, (Fire cfgHooks executeHook evt).getLast? = some r ∧ r.Block = true) := by
  refine ⟨?_, ?_, ?_⟩
  · intro hp
    by_cases he : (cfgHooks evt).isEmpty
    · rw [List.isEmpty_iff] at he
      simp [Fire, he]
    · simp only [Fire, he, if_neg, Bool.false_eq_true, not_false_eq_true, if_false, hp]
      exact fireLoop_not_pre executeHook (cfgHooks evt)
  · intro hp
    by_cases he : (cfgHooks evt).isEmpty
    · rw [List.isEmpty_iff] at he
      simp [Fire, he]
    · simp only [Fire, he, Bool.false_eq_true, not_false_eq_true, if_false, hp]
      exact fireLoop_pre executeHook (cfgHooks evt)
  · intro hp hex
    by_cases he : (cfgHooks evt).isEmpty
    · rw [List.isEmpty_iff] at he
      rw [he] at hex
      exact absurd hex (by simp)
    · simp only [Fire, he, Bool.false_eq_true, not_false_eq_true, if_false, hp]
      exact fireLoop_pre_block_last executeHook (cfgHooks evt) hex

/-- C9 witness: a pre-event with a blocking first hook stops after one
result; the same hooks on a non-pre event all run. -/
theorem Fire_spec_witness :
    (Fire (fun _ => [⟨"builtin", "", "b1", 0⟩, ⟨"builtin", "", "b2", 0⟩])
        (fun h => ⟨h.Builtin == "b1", "", none, 0⟩) "pre-shutdown").length = 1
    ∧ (Fire (fun _ => [⟨"builtin", "", "b1", 0⟩, ⟨"builtin", "", "b2", 0⟩])
        (fun h => ⟨h.Builtin == "b1", "", none, 0⟩) "post-shutdown").length = 2 := by
  have h := Fire_spec (fun _ => [⟨"builtin", "", "b1", 0⟩, ⟨"builtin", "", "b2", 0⟩])
    (fun h => ⟨h.Builtin == "b1", "", none, 0⟩) "pre-shutdown"
  have h2 := Fire_spec (fun _ => [⟨"builtin", "", "b1", 0⟩, ⟨"builtin", "", "b2", 0⟩])
    (fun h => ⟨h.Builtin == "b1", "", none, 0⟩) "post-shutdown"
  rw [h.2.1 rfl, h2.1 rfl]
  decide

/-- The outcome of `feedFirstReady` is determined by the first
candidate, in supplied order, whose routing resolves and whose dispatch
succeeds. -/
theorem feedFirstReady_outcome (env : ScanEnv) :
    ∀ cands : List String,
      (feedFirstReady env cands).1 =
        match cands.find? (dispatchSucceeds env) with
        | some iss => .fed iss
        | none => .noOp
  | [] => rfl
  | iss :: rest => by
    cases hr : env.resolveRig iss with
    | none =>
      have hds : dispatchSucceeds env iss = false := by simp [dispatchSucceeds, hr]
      rw [List.find?_cons_of_neg _ (by simp [hds])]
      simpa [feedFirstReady, hr] using feedFirstReady_outcome env rest
    | some rig =>
      by_cases hd : env.dispatchOK iss rig
      · have hds : dispatchSucceeds env iss = true := by simp [dispatchSucceeds, hr, hd]
        rw [List.find?_cons_of_pos _ hds]
        simp [feedFirstReady, hr, hd]
      · have hds : dispatchSucceeds env iss = false := by
          simp [dispatchSucceeds, hr, hd]
        rw [List.find?_cons_of_neg _ (by simp [hds])]
        simpa [feedFirstReady, hr, hd] using feedFirstReady_outcome env rest

/-- The dispatch attempts of `feedFirstReady`: one per routable
candidate, in order, up to and including the first successful one — no
candidate is retried within the pass. -/
theorem feedFirstReady_calls (env : ScanEnv) :
    ∀ cands : List String,
      (feedFirstReady env cands).2 =
        (cands.take (cands.findIdx (dispatchSucceeds env) + 1)).filterMap
          fun iss => (env.resolveRig iss).map fun rig => Call.dispatch iss rig
  | [] => rfl
  | iss :: rest => by
    rw [List.findIdx_cons]
    cases hr : env.resolveRig iss with
    | none =>
      have hds : dispatchSucceeds env iss = false := by simp [dispatchSucceeds, hr]
      rw [hds]
      simp only [cond_false, List.take_succ_cons, List.filterMap_cons, hr,
        Option.map_none']
      simpa [feedFirstReady, hr] using feedFirstReady_calls env rest
    | some rig =>
      by_cases hd : env.dispatchOK iss rig
      · have hds : dispatchSucceeds env iss = true := by simp [dispatchSucceeds, hr, hd]
        rw [hds]
        simp [feedFirstReady, hr, hd]
      · have hds : dispatchSucceeds env iss = false := by
          simp [dispatchSucceeds, hr, hd]
        rw [hds]
        simp only [cond_false, List.take_succ_cons, List.filterMap_cons, hr,
          Option.map_some']
        simpa [feedFirstReady, hr, hd] using feedFirstReady_calls env rest

/-- At most one of the dispatch attempts of a `feedFirstReady` pass is
accepted by the dispatch boundary. -/
theorem feedFirstReady_at_most_one (env : ScanEnv) :
    ∀ cands : List String,
      (feedFirstReady env cands).2.countP (isSuccessfulDispatch env) ≤ 1
  | [] => by simp [feedFirstReady]
  | iss :: rest => by
    cases hr : env.resolveRig iss with
    | none =>
      simpa [feedFirstReady, hr] using feedFirstReady_at_most_one env rest
    | some rig =>
      by_cases hd : env.dispatchOK iss rig
      · simp [feedFirstReady, hr, hd, List.countP_cons, isSuccessfulDispatch]
      · have h := feedFirstReady_at_most_one env rest
        simpa [feedFirstReady, hr, hd, List.countP_cons, isSuccessfulDispatch]
          using h

/-- C1: one `feedFirstReady` invocation feeds at most one issue — the
boundary accepts at most one of its dispatch attempts; candidates are
tried in the supplied order, a candidate whose routing or dispatch
fails is skipped without retry in the pass, and the invocation stops at
the first success, so the fed issue is exactly the first candidate in
order whose routing resolves and whose dispatch succeeds (a no-op when
there is none). -/
theorem feedFirstReady_spec (env : ScanEnv) (cands : List String) :
    ((feedFirstReady env cands).2.countP (isSuccessfulDispatch env) ≤ 1)
    ∧ ((feedFirstReady env cands).1 =
        match cands.find? (dispatchSucceeds env) with
        | some iss => .fed iss
        | none => .noOp)
    ∧ ((feedFirstReady env cands).2 =
        (cands.take (cands.findIdx (dispatchSucceeds env) + 1)).filterMap
          fun iss => (env.resolveRig iss).map fun rig => Call.dispatch iss rig) :=
  ⟨feedFirstReady_at_most_one env cands, feedFirstReady_outcome env cands,
    feedFirstReady_calls env cands⟩

/-- The trace of one scan cycle is the concatenation of the per-convoy
traces: convoys are processed independently. -/
theorem scan_eq_flatMap (env : ScanEnv) :
    ∀ convoys : List StrandedConvoy,
      scan env convoys = convoys.flatMap (perConvoyCalls env)
  | [] => rfl
  | c :: rest => by
    simp [scan, scan_eq_flatMap env rest]

/-- C8: a failure while processing one stranded convoy (the
success/failure outcomes of dispatch, routing and close are the
arbitrary `env`) never aborts the cycle — every convoy in the list is
still processed, and each of its own dispatch/close calls still occurs
in the cycle's trace. -/
theorem scan_failure_isolated (env : ScanEnv) (convoys : List StrandedConvoy)
    (cv : StrandedConvoy) (hmem : cv ∈ convoys) :
    (scan env convoys = convoys.flatMap (perConvoyCalls env))
    ∧ ∀ c ∈ perConvoyCalls env cv, c ∈ scan env convoys := by
  refine ⟨scan_eq_flatMap env convoys, fun c hc => ?_⟩
  rw [scan_eq_flatMap env convoys]
  exact List.mem_flatMap.mpr ⟨cv, hmem, hc⟩

/-- C8 witness: two stranded convoys; the first one's dispatch fails
(and close fails too), yet the second convoy's close call still
occurs. -/
theorem scan_failure_isolated_witness :
    Call.closeConvoy "cv2" ∈
      scan ⟨fun _ => some "rig1", fun _ _ => false, fun _ => false⟩
        [⟨"cv1", 1, ["x1"]⟩, ⟨"cv2", 0, []⟩] := by
  have h := scan_failure_isolated
    ⟨fun _ => some "rig1", fun _ _ => false, fun _ => false⟩
    [⟨"cv1", 1, ["x1"]⟩, ⟨"cv2", 0, []⟩] ⟨"cv2", 0, []⟩ (by simp)
  exact h.2 (Call.closeConvoy "cv2") (by simp [perConvoyCalls])

/-- Folding `max` never goes below its starting value. -/
theorem foldl_max_ge_init :
    ∀ (l : List Event) (b : Nat), b ≤ l.foldl (fun acc e => max acc e.id) b
  | [], _ => le_refl _
  | e :: rest, b =>
    le_trans (le_max_left b e.id) (foldl_max_ge_init rest (max b e.id))

/-- Folding `max` dominates every element folded over. -/
theorem foldl_max_ge_mem :
    ∀ (l : List Event) (b : Nat) (e : Event), e ∈ l →
      e.id ≤ l.foldl (fun acc e => max acc e.id) b
  | [], _, _, h => absurd h (by simp)
  | e' :: rest, b, e, h => by
    rcases List.mem_cons.mp h with heq | hmem
    · subst heq
      exact le_trans (le_max_right b e.id) (foldl_max_ge_init rest _)
    · exact foldl_max_ge_mem rest _ e hmem

/-- A seeded poll never lowers a store's high-water mark. -/
theorem pollStore_mark_mono (edges : List DepEdge) (mark : Nat)
    (events : List Event) : mark ≤ (pollStore edges true mark events).1 := by
  simpa [pollStore] using foldl_max_ge_init (eventsSince events mark) mark

/-- A seeded `pollAllStores` pass never lowers any store's mark. -/
theorem pollAllStores_marks_mono (edges : List DepEdge) :
    ∀ (stores : List (String × List Event)) (marks : String → Nat)
      (name : String),
      marks name ≤ (pollAllStores edges true stores marks).1 name
  | [], _, _ => le_refl _
  | (nm, evs) :: rest, marks, name => by
    have hstep : marks name ≤
        updateMark marks nm (pollStore edges true (marks nm) evs).1 name := by
      by_cases hn : name = nm
      · subst hn
        simpa [updateMark] using pollStore_mark_mono edges (marks name) evs
      · simp [updateMark, hn]
    have hrec := pollAllStores_marks_mono edges rest
      (updateMark marks nm (pollStore edges true (marks nm) evs).1) name
    show marks name ≤
      (pollAllStores edges true rest
        (updateMark marks nm (pollStore edges true (marks nm) evs).1)).1 name
    exact le_trans hstep hrec

/-- A full poll cycle by a seeded poller never lowers any mark. -/
theorem pollCycle_marks_mono (edges : List DepEdge)
    (snap : List (String × List Event)) (st : PollerState)
    (hseeded : st.seeded = true) (name : String) :
    st.marks name ≤ (pollCycle edges snap st).marks name := by
  simp only [pollCycle, hseeded]
  exact pollAllStores_marks_mono edges snap st.marks name

/-- Chain of marks along a run starting from a seeded state, with the
start state included. -/
theorem pollerStates_chain_aux (edges : List DepEdge) (name : String) :
    ∀ (snaps : List (List (String × List Event))) (st : PollerState),
      st.seeded = true →
      List.Chain' (· ≤ ·)
        ((st :: pollerStates edges st snaps).map fun s => s.marks name)
  | [], st, _ => by simp [pollerStates]
  | snap :: rest, st, hseeded => by
    have hmono := pollCycle_marks_mono edges snap st hseeded name
    have hrec := pollerStates_chain_aux edges name rest (pollCycle edges snap st) rfl
    simpa [pollerStates, List.chain'_cons] using ⟨hmono, by simpa using hrec⟩

/-- Modelled from the spec: the high-water marks a store sees along a
run are non-decreasing from the first poll on, for any starting state
(the warm-up, if the run starts unseeded, only seeds). -/
theorem pollerStates_chain (edges : List DepEdge) (st : PollerState)
    (snaps : List (List (String × List Event))) (name : String) :
    List.Chain' (· ≤ ·)
      ((pollerStates edges st snaps).map fun s => s.marks name) := by
  cases snaps with
  | nil => simp [pollerStates]
  | cons snap rest =>
    have := pollerStates_chain_aux edges name rest (pollCycle edges snap st) rfl
    simpa [pollerStates] using this

/-- A warm-up pass over any store list processes zero events. -/
theorem pollAllStores_warmup_trace (edges : List DepEdge) :
    ∀ (stores : List (String × List Event)) (marks : String → Nat),
      (pollAllStores edges false stores marks).2 = []
  | [], _ => rfl
  | (nm, evs) :: rest, marks => by
    show (pollStore edges false (marks nm) evs).2 ++
        (pollAllStores edges false rest
          (updateMark marks nm (pollStore edges false (marks nm) evs).1)).2 = []
    rw [pollAllStores_warmup_trace edges rest]
    simp [pollStore]

/-- C4: per store, the high-water mark is non-decreasing across any
sequence of polls; the first poll is a warm-up that seeds the mark from
the store's current latest event id and processes zero events; and
every seeded poll advances the mark to the highest event id observed in
that poll — at least the old mark, at least every fresh event's id, and
independent of what the events trigger (the same whatever the
dependency edges are), so a poll whose events were all skipped still
advances it. -/
theorem highWaterMark_spec (edges : List DepEdge) (st : PollerState)
    (snaps : List (List (String × List Event))) (name : String)
    (stores : List (String × List Event)) (marks : String → Nat)
    (mark : Nat) (events : List Event) :
    (List.Chain' (· ≤ ·)
      ((pollerStates edges st snaps).map fun s => s.marks name))
    ∧ ((pollAllStores edges false stores marks).2 = [])
    ∧ (pollStore edges false mark events = (latestEventID events, []))
    ∧ (mark ≤ (pollStore edges true mark events).1)
    ∧ (∀ e ∈ eventsSince events mark, e.id ≤ (pollStore edges true mark events).1)
    ∧ (∀ edges2 : List DepEdge,
        (pollStore edges2 true mark events).1 = (pollStore edges true mark events).1) := by
  refine ⟨pollerStates_chain edges st snaps name,
    pollAllStores_warmup_trace edges stores marks, rfl,
    pollStore_mark_mono edges mark events, ?_, fun _ => rfl⟩
  intro e he
  simpa [pollStore] using foldl_max_ge_mem (eventsSince events mark) mark e he

/-- C4 witness: a three-event history; the warm-up seeds the mark to 7
and processes nothing; a later poll from mark 2 advances the mark to 7,
dominating the fresh event with id 5. -/
theorem highWaterMark_spec_witness :
    pollStore [] false 0 [⟨2, "closed", "a"⟩, ⟨5, "created", ""⟩, ⟨7, "closed", "b"⟩]
      = (7, [])
    ∧ 2 ≤ (pollStore [] true 2
        [⟨2, "closed", "a"⟩, ⟨5, "created", ""⟩, ⟨7, "closed", "b"⟩]).1
    ∧ (5 : Nat) ≤ (pollStore [] true 2
        [⟨2, "closed", "a"⟩, ⟨5, "created", ""⟩, ⟨7, "closed", "b"⟩]).1 := by
  have h := highWaterMark_spec [] ⟨false, fun _ => 0⟩ [] "hq" [] (fun _ => 0) 2
    [⟨2, "closed", "a"⟩, ⟨5, "created", ""⟩, ⟨7, "closed", "b"⟩]
  refine ⟨?_, h.2.2.2.1, ?_⟩
  · have h0 := highWaterMark_spec [] ⟨false, fun _ => 0⟩ [] "hq" [] (fun _ => 0) 0
      [⟨2, "closed", "a"⟩, ⟨5, "created", ""⟩, ⟨7, "closed", "b"⟩]
    exact h0.2.2.1
  · exact h.2.2.2.2.1 ⟨5, "created", ""⟩ (by simp [eventsSince])

/-- Counting one convoy's check calls among those generated for a
duplicate-free convoy list: exactly one per listed convoy. -/
theorem count_convoyCheck_map (issueID cv : String) :
    ∀ tc : List String, tc.Nodup →
      ((tc.map fun c => Call.convoyCheck c issueID).count
          (Call.convoyCheck cv issueID))
        = if cv ∈ tc then 1 else 0
  | [], _ => by simp
  | c :: rest, hnd => by
    have hnd' := hnd.of_cons
    have hnotmem : c ∉ rest := (List.nodup_cons.mp hnd).1
    by_cases hc : c = cv
    · subst hc
      have hzero : Call.convoyCheck c issueID ∉
          (rest.map fun x => Call.convoyCheck x issueID) := by
        intro hmem
        obtain ⟨x, hx, hxeq⟩ := List.mem_map.mp hmem
        have hxc : x = c := by injection hxeq
        exact hnotmem (hxc ▸ hx)
      simp [List.count_cons, List.count_eq_zero.mpr hzero]
    · have hbe : (Call.convoyCheck c issueID == Call.convoyCheck cv issueID) = false := by
        rw [beq_eq_false_iff_ne]
        intro heq
        injection heq with h1 h2
        exact hc h1
      simp [List.count_cons, hbe, count_convoyCheck_map issueID cv rest hnd',
        Ne.symm hc]

/-- C5: in a seeded poll, the trace is exactly the per-event traces of
the fresh events in order; a completion ("closed") event with a
non-empty issue id triggers one tracking-convoy resolution at the
dependency store and one convoy check per convoy with a `tracks` edge
to that issue (exactly once per such convoy when the tracking list is
duplicate-free); every other event — wrong type or empty issue id —
contributes zero calls of any kind. -/
theorem pollEvents_completion_spec (edges : List DepEdge) (e : Event)
    (mark : Nat) (events : List Event) :
    (e.type_ = "closed" → e.issueID ≠ "" →
      (processEvent edges e =
        .depLookup e.issueID ::
          (getTrackingConvoys edges e.issueID).map fun cv =>
            .convoyCheck cv e.issueID)
      ∧ ((getTrackingConvoys edges e.issueID).Nodup → ∀ cv : String,
          (processEvent edges e).count (.convoyCheck cv e.issueID)
            = if cv ∈ getTrackingConvoys edges e.issueID then 1 else 0))
    ∧ (¬(e.type_ = "closed" ∧ e.issueID ≠ "") → processEvent edges e = [])
    ∧ (∀ cv : String, cv ∈ getTrackingConvoys edges e.issueID ↔
        ∃ ed ∈ edges, ed.src = cv ∧ ed.dst = e.issueID ∧ ed.kind = "tracks")
    ∧ ((pollStore edges true mark events).2 =
        (eventsSince events mark).flatMap (processEvent edges)) := by
  refine ⟨?_, ?_, ?_, by simp [pollStore]⟩
  · intro ht hi
    have hpe : processEvent edges e =
        .depLookup e.issueID ::
          (getTrackingConvoys edges e.issueID).map fun cv =>
            .convoyCheck cv e.issueID := by
      simp [processEvent, ht, hi]
    refine ⟨hpe, fun hnd cv => ?_⟩
    rw [hpe]
    have hne : (Call.depLookup e.issueID == Call.convoyCheck cv e.issueID) = false := by
      simp
    rw [List.count_cons, hne]
    simpa using count_convoyCheck_map e.issueID cv
      (getTrackingConvoys edges e.issueID) hnd
  · intro hnot
    by_cases ht : e.type_ = "closed"
    · have hi : e.issueID = "" := by
        by_contra hi
        exact hnot ⟨ht, hi⟩
      simp [processEvent, ht, hi]
    · simp [processEvent, ht]
  · intro cv
    simp only [getTrackingConvoys, List.mem_map, List.mem_filter,
      Bool.and_eq_true, beq_iff_eq]
    constructor
    · rintro ⟨ed, ⟨hmem, hdst, hkind⟩, hsrc⟩
      exact ⟨ed, hmem, hsrc, hdst, hkind⟩
    · rintro ⟨ed, hmem, hsrc, hdst, hkind⟩
      exact ⟨ed, ⟨hmem, hdst, hkind⟩, hsrc⟩

/-- C5 witness: a closed event for a tracked issue triggers exactly one
check for its tracking convoy; a non-close event and a close event with
an empty issue id contribute zero calls. -/
theorem pollEvents_completion_spec_witness :
    (processEvent [⟨"cv1", "i1", "tracks"⟩, ⟨"cv1", "i1", "blocks"⟩]
        ⟨4, "closed", "i1"⟩).count (.convoyCheck "cv1" "i1") = 1
    ∧ processEvent [⟨"cv1", "i1", "tracks"⟩] ⟨5, "created", "i1"⟩ = []
    ∧ processEvent [⟨"cv1", "i1", "tracks"⟩] ⟨6, "closed", ""⟩ = [] := by
  have h := pollEvents_completion_spec
    [⟨"cv1", "i1", "tracks"⟩, ⟨"cv1", "i1", "blocks"⟩] ⟨4, "closed", "i1"⟩ 0 []
  have h2 := pollEvents_completion_spec [⟨"cv1", "i1", "tracks"⟩]
    ⟨5, "created", "i1"⟩ 0 []
  have h3 := pollEvents_completion_spec [⟨"cv1", "i1", "tracks"⟩]
    ⟨6, "closed", ""⟩ 0 []
  refine ⟨?_, h2.2.1 (by simp), h3.2.1 (by simp)⟩
  have hc := (h.1 rfl (by simp)).2 (by decide) "cv1"
  simpa [getTrackingConvoys] using hc

end Gastown
